import Mathlib

/-!
# Path-to-span correlation of the GraphQL tracing extensions

A shallow embedding of `ctx.go`, `opentracer.go`, `stackdrive.go` and
`gqltracer.go`, followed by the properties of the path-key codec, of the
context-scoped span registry and of the trace aggregator.

Conventions of the embedding:

* a Go `[]interface{}` path is an `Option (List Seg)`: `none` is the `nil`
  slice, `some xs` a non-nil slice with elements `xs`;
* a path segment is a `string` or an `int` (what `Path.AsArray()` yields);
  an `int` is an unbounded `Int`, since no arithmetic is done on it;
* Go strings are Lean `String`s, `+=` is `++`;
* a pointer field is an `Option` (`none` is the `nil` pointer) and a function
  that can dereference one returns `Except Fault`.
-/

namespace Extensions

/-! ## Path segments and their `%v` rendering -/

/-- One element of a resolution path: a field name or a list index. -/
inductive Seg where
  | str (s : String)
  | int (i : Int)
  deriving DecidableEq, Repr

/-- Decimal text of a Go `int`, as `%v` prints it: the digits of the absolute
value, preceded by `-` for a negative number. -/
def fmtInt : Int → String
  | Int.ofNat n => Nat.repr n
  | Int.negSucc n => "-" ++ Nat.repr (n + 1)

/-- The verb `%v` applied to a path segment: a string prints as itself, an
`int` in decimal. -/
def fmtV : Seg → String
  | Seg.str s => s
  | Seg.int i => fmtInt i

/-- The call `fmt.Sprintf("_%v", arg)`. -/
def sprintfArg (arg : Seg) : String :=
  "_" ++ fmtV arg

/-- The type assertion `x.(int)`: its `ok` result. -/
def Seg.isInt : Seg → Bool
  | Seg.int _ => true
  | Seg.str _ => false

/-- Go's `len` of a slice; the `nil` slice has length 0. -/
def len (args : Option (List Seg)) : Nat :=
  match args with
  | none => 0
  | some xs => xs.length

/-- The elements of a slice; the `nil` slice has none. -/
def elems (args : Option (List Seg)) : List Seg :=
  match args with
  | none => []
  | some xs => xs

/-! ## `ctx.go` -/

/-- The loop `for _, arg := range args { key += fmt.Sprintf("_%v", arg) }`. -/
def rangeLoop (key : String) : List Seg → String
  | [] => key
  | arg :: rest => rangeLoop (key ++ sprintfArg arg) rest

/-- The loop `for i := 0; i < n; i++ { key += fmt.Sprintf("_%v", args[i]) }`
for a bound `n` within the slice: after iteration `i` the key has grown by the
rendering of `args[i]`. -/
def indexLoop (key : String) (xs : List Seg) : (n : Nat) → n ≤ xs.length → String
  | 0, _ => key
  | n + 1, h => indexLoop key xs n (Nat.le_of_succ_le h) ++ sprintfArg (xs.get ⟨n, h⟩)

/-- The function `getCtxKey` of `ctx.go`. -/
def getCtxKey (key : String) (args : Option (List Seg)) : String :=
  match args with
  | none => key
  | some xs => rangeLoop key xs

/-- The function `getParentCtxKey` of `ctx.go`. -/
def getParentCtxKey (key : String) (args : Option (List Seg)) : String :=
  if h : len args ≤ 1 then key
  else
    have h2 : 2 ≤ (elems args).length := by
      cases args with
      | none => simp [len] at h
      | some xs => simp only [len, elems] at h ⊢; omega
    if ((elems args).get ⟨(elems args).length - 2, by omega⟩).isInt then
      indexLoop key (elems args) ((elems args).length - 2) (by omega)
    else
      indexLoop key (elems args) ((elems args).length - 1) (by omega)

/-! ## The private codec of `opentracer.go` -/

namespace OpenTracer

/-- The function `getCtxKey` of `opentracer.go`. -/
def getCtxKey (args : Option (List Seg)) : String :=
  let key := "opentracing_root"
  match args with
  | none => key
  | some xs => rangeLoop key xs

/-- The function `getParentCtxKey` of `opentracer.go`. -/
def getParentCtxKey (args : Option (List Seg)) : String :=
  let key := "opentracing_root"
  if h : len args ≤ 1 then key
  else
    have h2 : 2 ≤ (elems args).length := by
      cases args with
      | none => simp [len] at h
      | some xs => simp only [len, elems] at h ⊢; omega
    if ((elems args).get ⟨(elems args).length - 2, by omega⟩).isInt then
      indexLoop key (elems args) ((elems args).length - 2) (by omega)
    else
      indexLoop key (elems args) ((elems args).length - 1) (by omega)

end OpenTracer

/-! ## The request context (`context.Context` of the standard library) -/

/-- A span handle (`trace.SpanContext`, `opentracing.SpanContext`): the codec
and the registry only store and retrieve it. -/
structure SpanContext where
  traceID : Nat
  spanID : Nat
  deriving DecidableEq, Repr

/-- A context key. Go compares keys by dynamic type and value: a key of the
type `ctxKey` of this package equals another one exactly when the strings are
equal, and never equals a key of any other type. -/
inductive Key where
  | ctxKey (s : String)
  | foreign (name : String)
  deriving DecidableEq, Repr

/-- A value stored in a context: a span handle, or anything else. -/
inductive Val where
  | spanContext (sc : SpanContext)
  | foreign (name : String)
  deriving DecidableEq, Repr

/-- A `context.Context` as far as values go: the empty context, or a parent
wrapped by `context.WithValue`. -/
inductive Context where
  | background
  | withValue (parent : Context) (key : Key) (val : Val)
  deriving DecidableEq, Repr

/-- The function `context.WithValue`: a new context around the given one. -/
def Context.WithValue (ctx : Context) (key : Key) (val : Val) : Context :=
  Context.withValue ctx key val

/-- The method `ctx.Value(key)`: the value of the innermost wrapper with an
equal key, `none` (Go's `nil`) when there is none. -/
def Context.Value : Context → Key → Option Val
  | Context.background, _ => none
  | Context.withValue parent k v, key => if key = k then some v else parent.Value key

/-- The two-result type assertion `v.(trace.SpanContext)` on a looked-up
value, with a failed assertion giving the zero `SpanContext`. -/
def assertSpanContext : Option Val → SpanContext
  | some (Val.spanContext sc) => sc
  | _ => { traceID := 0, spanID := 0 }

/-- The two-result type assertion `v.(opentracing.SpanContext)` on a looked-up
value; the asserted type is an interface, so a failed assertion gives `nil`. -/
def assertSpanContextIface : Option Val → Option SpanContext
  | some (Val.spanContext sc) => some sc
  | _ => none

/-- The call `fmt.Sprint(path)` on a `[]interface{}`: the elements, rendered
with `%v`, separated by blanks, in square brackets. -/
def sprintPath (args : Option (List Seg)) : String :=
  "[" ++ " ".intercalate ((elems args).map fmtV) ++ "]"

/-- The part of `graphql.ResolveInfo` the tracers read. `Path` stands for
`i.Path.AsArray()`, `ParentType` and `ReturnType` for `i.ParentType.String()`
and `i.ReturnType.String()`. -/
structure ResolveInfo where
  FieldName : String
  Path : Option (List Seg)
  ParentType : String
  ReturnType : String
  deriving DecidableEq, Repr

/-! ## `stackdrive.go` -/

/-- The tracer of `stackdrive.go`; `root` is the span handle behind the
pointer `t.root` (a `nil` span has the zero handle). -/
structure SDTracer where
  rootLabel : String
  root : Option SpanContext

/-- The method `t.root.SpanContext()`. -/
def SDTracer.rootSpanContext (t : SDTracer) : SpanContext :=
  match t.root with
  | some sc => sc
  | none => { traceID := 0, spanID := 0 }

/-- The method `ExecutionDidStart` of `SDTracer`, given the SDK function
`trace.StartSpanWithRemoteParent`: the returned context and the span that the
finish callback ends. -/
def SDTracer.ExecutionDidStart
    (startSpanWithRemoteParent : Context → String → SpanContext → SpanContext)
    (t : SDTracer) (ctx : Context) : Context × SpanContext :=
  let label := "execution"
  let span := startSpanWithRemoteParent ctx label t.rootSpanContext
  let ctx := ctx.WithValue (Key.ctxKey (getCtxKey "stackdriver_root" none)) (Val.spanContext span)
  (ctx, span)

/-- The method `ResolveFieldDidStart` of `SDTracer`, given the SDK function
`trace.StartSpanWithRemoteParent`: the returned context and the span that the
finish callback tags and ends. -/
def SDTracer.ResolveFieldDidStart
    (startSpanWithRemoteParent : Context → String → SpanContext → SpanContext)
    (ctx : Context) (i : ResolveInfo) : Context × SpanContext :=
  let label := sprintPath i.Path
  let parentCtx :=
    assertSpanContext (ctx.Value (Key.ctxKey (getParentCtxKey "stackdriver_root" i.Path)))
  let span := startSpanWithRemoteParent ctx label parentCtx
  let ctx := ctx.WithValue (Key.ctxKey (getCtxKey "stackdriver_root" i.Path)) (Val.spanContext span)
  (ctx, span)

/-! ## `opentracer.go` -/

/-- The method `ResolveFieldDidStart` of `OpenTracer`, given the SDK function
`opentracing.StartSpan` with a `ChildOf` reference: the returned context and
the span that the finish callback tags and finishes. -/
def OpenTracer.ResolveFieldDidStart
    (startSpanChildOf : String → Option SpanContext → SpanContext)
    (ctx : Context) (i : ResolveInfo) : Context × SpanContext :=
  let label := sprintPath i.Path
  let parentCtx :=
    assertSpanContextIface (ctx.Value (Key.ctxKey (OpenTracer.getParentCtxKey i.Path)))
  let span := startSpanChildOf label parentCtx
  let ctx := ctx.WithValue (Key.ctxKey (OpenTracer.getCtxKey i.Path)) (Val.spanContext span)
  (ctx, span)

/-! ## `gqltracer.go` -/

/-- How a call can fail to return normally. -/
inductive Fault where
  | nilPointerDereference
  | blockedForever
  | unlockOfUnlockedMutex
  deriving DecidableEq, Repr

/-- The state of a `sync.Mutex`. -/
structure Mutex where
  locked : Bool
  deriving DecidableEq, Repr

/-- The method `Lock`, with no other goroutine running: it takes a free mutex
and never returns on a held one. -/
def Mutex.Lock (m : Mutex) : Except Fault Mutex :=
  if m.locked then Except.error Fault.blockedForever else Except.ok { locked := true }

/-- The method `Unlock`: it frees a held mutex and is a fatal error on a free
one. -/
def Mutex.Unlock (m : Mutex) : Except Fault Mutex :=
  if m.locked then Except.ok { locked := false } else Except.error Fault.unlockOfUnlockedMutex

/-- The struct `ResolverResult`; times are in nanoseconds. -/
structure ResolverResult where
  Path : Option (List Seg)
  ParentType : String
  FieldName : String
  ReturnType : String
  StartOffset : Int
  Duration : Int
  deriving DecidableEq, Repr

/-- The struct `ExecutionResult`; `mu` is the pointer `*sync.Mutex`. -/
structure ExecutionResult where
  Resolvers : List ResolverResult
  mu : Option Mutex
  deriving DecidableEq, Repr

/-- The struct `ParsingResult`. -/
structure ParsingResult where
  StartOffset : Int
  Duration : Int
  deriving DecidableEq, Repr

/-- The struct `ValidationResult`. -/
structure ValidationResult where
  StartOffset : Int
  Duration : Int
  deriving DecidableEq, Repr

/-- The struct `TracingResult`; instants are nanoseconds on one clock, the
zero `time.Time` being 0. -/
structure TracingResult where
  Version : Int
  StartTime : Int
  EndTime : Int
  Duration : Int
  Parsing : Option ParsingResult
  Validation : Option ValidationResult
  Execution : Option ExecutionResult
  deriving DecidableEq, Repr

/-- The struct `GQLTracer`. -/
structure GQLTracer where
  result : Option TracingResult
  deriving DecidableEq, Repr

/-- The function `NewGQLTracer`: the composite literals name `Resolvers`
only, every other field has its zero value. -/
def NewGQLTracer : GQLTracer :=
  { result := some
      { Version := 0
        StartTime := 0
        EndTime := 0
        Duration := 0
        Parsing := none
        Validation := none
        Execution := some { Resolvers := [], mu := none } } }

/-- The method `Init` of `GQLTracer`, at clock reading `now`. -/
def GQLTracer.Init (t : GQLTracer) (now : Int) : Except Fault GQLTracer :=
  match t.result with
  | none => Except.error Fault.nilPointerDereference
  | some res => Except.ok { result := some { res with StartTime := now } }

/-- The method `AddResolverResult` of `*ExecutionResult`. -/
def ExecutionResult.AddResolverResult (er : Option ExecutionResult) (r : ResolverResult) :
    Except Fault ExecutionResult :=
  match er with
  | none => Except.error Fault.nilPointerDereference
  | some e =>
    match e.mu with
    | none => Except.error Fault.nilPointerDereference
    | some m =>
      match m.Lock with
      | Except.error f => Except.error f
      | Except.ok m1 =>
        let resolvers := e.Resolvers ++ [r]
        match m1.Unlock with
        | Except.error f => Except.error f
        | Except.ok m2 => Except.ok { Resolvers := resolvers, mu := some m2 }

/-- The method `ResolveFieldDidStart` of `GQLTracer`, at clock reading `now`:
the returned context and the record `r` that the finish callback completes. -/
def GQLTracer.ResolveFieldDidStart (t : GQLTracer) (ctx : Context) (now : Int)
    (i : ResolveInfo) : Except Fault (Context × ResolverResult) :=
  match t.result with
  | none => Except.error Fault.nilPointerDereference
  | some res =>
    Except.ok (ctx,
      { StartOffset := now - res.StartTime
        Path := i.Path
        ParentType := i.ParentType
        ReturnType := i.ReturnType
        FieldName := ""
        Duration := 0 })

/-- The first statement of the finish callback of `ResolveFieldDidStart`, at
clock reading `now`: the record as it is passed to `AddResolverResult`. -/
def GQLTracer.finishedRecord (t : GQLTracer) (r : ResolverResult) (now : Int) :
    Except Fault ResolverResult :=
  match t.result with
  | none => Except.error Fault.nilPointerDereference
  | some res => Except.ok { r with Duration := now - (res.StartTime + r.StartOffset) }

/-- The finish callback returned by `ResolveFieldDidStart`, at clock reading
`now`: the tracer after the call. -/
def GQLTracer.resolveFieldFinish (t : GQLTracer) (r : ResolverResult) (now : Int) :
    Except Fault GQLTracer :=
  match t.result with
  | none => Except.error Fault.nilPointerDereference
  | some res =>
    match t.finishedRecord r now with
    | Except.error f => Except.error f
    | Except.ok r1 =>
      match ExecutionResult.AddResolverResult res.Execution r1 with
      | Except.error f => Except.error f
      | Except.ok er => Except.ok { result := some { res with Execution := some er } }

/-! ## Functions and predicates used in the statements -/

/-- The characters the range loop appends for a list of segments. -/
def tailChars : List Seg → List Char
  | [] => []
  | a :: rest => '_' :: ((fmtV a).data ++ tailChars rest)

/-- The number a run of decimal digits denotes. -/
def decVal (cs : List Char) : Nat :=
  cs.foldl (fun v c => 10 * v + (c.toNat - 48)) 0

/-- A string that is the decimal text of a natural number, that is, the text
`%v` prints for some list index: printing its value gives it back (`"0"` and
`"12"` are, `"007"`, `"x1"` and the empty string are not). -/
def isIndexText (s : String) : Bool :=
  decide (Nat.repr (decVal s.data) = s)

/-- A segment without an underscore: an integer, or a string in which `_`
does not occur. -/
def Seg.underscoreFree : Seg → Bool
  | Seg.str s => s.data.all (fun c => decide (c ≠ '_'))
  | Seg.int _ => true

/-- An alphanumeric segment: an integer, or a string of letters and digits
only. -/
def Seg.alphanumeric : Seg → Bool
  | Seg.str s => s.data.all Char.isAlphanum
  | Seg.int _ => true

/-- A segment that is not a string spelling a list index. -/
def Seg.notIndexText : Seg → Bool
  | Seg.str s => !isIndexText s
  | Seg.int _ => true

/-! ## Lemmas on the two loops -/

theorem sprintfArg_data (a : Seg) : (sprintfArg a).data = '_' :: (fmtV a).data := by
  simp [sprintfArg, String.data_append]

theorem rangeLoop_data (key : String) (xs : List Seg) :
    (rangeLoop key xs).data = key.data ++ tailChars xs := by
  induction xs generalizing key with
  | nil => simp [rangeLoop, tailChars]
  | cons a rest ih =>
    simp [rangeLoop, tailChars, ih, String.data_append, sprintfArg_data]

theorem rangeLoop_snoc (key : String) (xs : List Seg) (a : Seg) :
    rangeLoop key (xs ++ [a]) = rangeLoop key xs ++ sprintfArg a := by
  induction xs generalizing key with
  | nil => simp [rangeLoop]
  | cons b rest ih => simp [rangeLoop, ih]

theorem indexLoop_eq_rangeLoop (key : String) (xs : List Seg) (n : Nat) (h : n ≤ xs.length) :
    indexLoop key xs n h = rangeLoop key (xs.take n) := by
  induction n with
  | zero => simp [indexLoop, rangeLoop]
  | succ n ih =>
    have hn : n < xs.length := h
    have ht : xs.take (n + 1) = xs.take n ++ [xs.get ⟨n, hn⟩] := by
      rw [List.take_succ, List.getElem?_eq_getElem hn]
      rfl
    rw [indexLoop, ih (Nat.le_of_succ_le h), ht, rangeLoop_snoc]

theorem getCtxKey_data (ns : String) (P : Option (List Seg)) :
    (getCtxKey ns P).data = ns.data ++ tailChars (elems P) := by
  cases P with
  | none => simp [getCtxKey, elems, tailChars]
  | some xs => simp [getCtxKey, elems, rangeLoop_data]

theorem getParentCtxKey_some (ns : String) (P : List Seg) (h : 2 ≤ P.length) :
    getParentCtxKey ns (some P) =
      if (P.get ⟨P.length - 2, by omega⟩).isInt then rangeLoop ns (P.take (P.length - 2))
      else rangeLoop ns (P.take (P.length - 1)) := by
  have h1 : ¬ len (some P) ≤ 1 := by simp only [len]; omega
  unfold getParentCtxKey
  rw [dif_neg h1]
  simp only [elems, indexLoop_eq_rangeLoop]

theorem getParentCtxKey_short_eq (ns : String) (P : Option (List Seg)) (h : len P ≤ 1) :
    getParentCtxKey ns P = ns := by
  unfold getParentCtxKey
  rw [dif_pos h]

theorem getParentCtxKey_data (ns : String) (P : Option (List Seg)) :
    ∃ t : List Char, (getParentCtxKey ns P).data = ns.data ++ t := by
  by_cases h : len P ≤ 1
  · exact ⟨[], by rw [getParentCtxKey_short_eq ns P h]; simp⟩
  · cases P with
    | none => simp [len] at h
    | some xs =>
      have h2 : 2 ≤ xs.length := by simp only [len] at h; omega
      rw [getParentCtxKey_some ns xs h2]
      split
      · exact ⟨_, rangeLoop_data _ _⟩
      · exact ⟨_, rangeLoop_data _ _⟩

/-! ## The path-key codec -/

/-- C1: for a path of at least two segments, the parent key is the self key of
the path without its last two segments when the second-to-last segment is an
integer, and the self key of the path without its last segment otherwise. -/
theorem getParentCtxKey_drops_trailing (ns : String) (P : List Seg) (h : 2 ≤ P.length) :
    getParentCtxKey ns (some P) =
      if (P.get ⟨P.length - 2, by omega⟩).isInt then getCtxKey ns (some P.dropLast.dropLast)
      else getCtxKey ns (some P.dropLast) := by
  rw [getParentCtxKey_some ns P h]
  have e1 : P.dropLast = P.take (P.length - 1) := List.dropLast_eq_take P
  have e2 : P.dropLast.dropLast = P.take (P.length - 2) := by
    rw [List.dropLast_eq_take, List.dropLast_eq_take, List.take_take, List.length_take]
    congr 1
    omega
  simp only [getCtxKey]
  rw [e2, e1]

/-- C1, at the path `["user","friends",2,"name"]`: the self key holds all four
segments and the parent key is the self key of `["user","friends"]`. -/
theorem getParentCtxKey_drops_trailing_witness :
    2 ≤ [Seg.str "user", Seg.str "friends", Seg.int 2, Seg.str "name"].length ∧
    getCtxKey "stackdriver_root"
        (some [Seg.str "user", Seg.str "friends", Seg.int 2, Seg.str "name"])
      = "stackdriver_root_user_friends_2_name" ∧
    getParentCtxKey "stackdriver_root"
        (some [Seg.str "user", Seg.str "friends", Seg.int 2, Seg.str "name"])
      = getCtxKey "stackdriver_root" (some [Seg.str "user", Seg.str "friends"]) :=
  ⟨by decide, by decide,
    (getParentCtxKey_drops_trailing "stackdriver_root"
      [Seg.str "user", Seg.str "friends", Seg.int 2, Seg.str "name"] (by decide)).trans
      (by decide)⟩

/-- C2: for a path of at most one segment (the nil and the empty path
included) the parent key is the bare namespace, which is the self key of the
nil path; so the context returned by the Stackdriver `ExecutionDidStart` holds
the execution span under the parent key of every such path. -/
theorem getParentCtxKey_top_level (ns : String) (P : Option (List Seg)) (h : len P ≤ 1)
    (startSpan : Context → String → SpanContext → SpanContext) (t : SDTracer) (c : Context) :
    getParentCtxKey ns P = ns ∧
    getParentCtxKey ns P = getCtxKey ns none ∧
    (SDTracer.ExecutionDidStart startSpan t c).1.Value
        (Key.ctxKey (getParentCtxKey "stackdriver_root" P))
      = some (Val.spanContext (SDTracer.ExecutionDidStart startSpan t c).2) := by
  refine ⟨getParentCtxKey_short_eq ns P h, ?_, ?_⟩
  · rw [getParentCtxKey_short_eq ns P h]
    rfl
  · rw [getParentCtxKey_short_eq "stackdriver_root" P h]
    simp [SDTracer.ExecutionDidStart, Context.WithValue, Context.Value, getCtxKey]

/-- C2, at the top-level path `["user"]` in an empty context. -/
theorem getParentCtxKey_top_level_witness :
    len (some [Seg.str "user"]) ≤ 1 ∧
    getParentCtxKey "stackdriver_root" (some [Seg.str "user"]) = "stackdriver_root" ∧
    getParentCtxKey "stackdriver_root" (some [Seg.str "user"])
      = getCtxKey "stackdriver_root" none ∧
    (SDTracer.ExecutionDidStart (fun _ _ parent => { traceID := parent.traceID, spanID := 7 })
        { rootLabel := "query", root := some { traceID := 1, spanID := 1 } }
        Context.background).1.Value
        (Key.ctxKey (getParentCtxKey "stackdriver_root" (some [Seg.str "user"])))
      = some (Val.spanContext
          (SDTracer.ExecutionDidStart (fun _ _ parent => { traceID := parent.traceID, spanID := 7 })
            { rootLabel := "query", root := some { traceID := 1, spanID := 1 } }
            Context.background).2) :=
  ⟨by decide,
    getParentCtxKey_top_level "stackdriver_root" (some [Seg.str "user"]) (by decide)
      (fun _ _ parent => { traceID := parent.traceID, spanID := 7 })
      { rootLabel := "query", root := some { traceID := 1, spanID := 1 } } Context.background⟩

theorem rangeLoop_snoc_ne (ns : String) (xs : List Seg) (a : Seg) :
    rangeLoop ns xs ≠ rangeLoop ns (xs ++ [a]) := by
  intro h
  have hl := congrArg String.length h
  rw [rangeLoop_snoc, String.length_append] at hl
  have : 0 < (sprintfArg a).length := by
    show 0 < (sprintfArg a).data.length
    rw [sprintfArg_data]
    exact Nat.succ_pos _
  omega

/-- C6: two list items under one field have the same parent key, the self key
of the field, and that key is the self key of neither item. -/
theorem sibling_items_share_parent (ns f : String) (i j : Int) :
    getParentCtxKey ns (some [Seg.str f, Seg.int i]) = getCtxKey ns (some [Seg.str f]) ∧
    getParentCtxKey ns (some [Seg.str f, Seg.int j]) = getCtxKey ns (some [Seg.str f]) ∧
    getCtxKey ns (some [Seg.str f]) ≠ getCtxKey ns (some [Seg.str f, Seg.int i]) ∧
    getCtxKey ns (some [Seg.str f]) ≠ getCtxKey ns (some [Seg.str f, Seg.int j]) := by
  refine ⟨?_, ?_, ?_, ?_⟩
  · rw [getParentCtxKey_some ns _ (by simp)]
    simp [Seg.isInt, getCtxKey]
  · rw [getParentCtxKey_some ns _ (by simp)]
    simp [Seg.isInt, getCtxKey]
  · exact rangeLoop_snoc_ne ns [Seg.str f] (Seg.int i)
  · exact rangeLoop_snoc_ne ns [Seg.str f] (Seg.int j)

theorem data_ne_of_head_ne (a b : String) (s t : List Char) (x y : Char) (u v : List Char)
    (ha : a.data = x :: u) (hb : b.data = y :: v) (hxy : x ≠ y) (k1 k2 : String)
    (h1 : k1.data = a.data ++ s) (h2 : k2.data = b.data ++ t) : k1 ≠ k2 := by
  intro h
  subst h
  rw [h1, ha, hb] at h2
  simp only [List.cons_append, List.cons.injEq] at h2
  exact hxy h2.1

theorem opentracing_ne_stackdriver (k1 k2 : String) (s t : List Char)
    (h1 : k1.data = "opentracing_root".data ++ s)
    (h2 : k2.data = "stackdriver_root".data ++ t) : k1 ≠ k2 :=
  data_ne_of_head_ne "opentracing_root" "stackdriver_root" s t 'o' 's'
    "pentracing_root".data "tackdriver_root".data rfl rfl (by decide) k1 k2 h1 h2

/-- C10: the codec private to `opentracer.go` is the shared codec of `ctx.go`
at the namespace `"opentracing_root"`, for both keys and every path. -/
theorem openTracer_codec_agrees (P : Option (List Seg)) :
    OpenTracer.getCtxKey P = getCtxKey "opentracing_root" P ∧
    OpenTracer.getParentCtxKey P = getParentCtxKey "opentracing_root" P :=
  ⟨rfl, rfl⟩

theorem openTracer_getCtxKey_eq (P : Option (List Seg)) :
    OpenTracer.getCtxKey P = getCtxKey "opentracing_root" P := rfl

theorem openTracer_getParentCtxKey_eq (P : Option (List Seg)) :
    OpenTracer.getParentCtxKey P = getParentCtxKey "opentracing_root" P := rfl

/-- C7: no key of the OpenTracer backend, self or parent, built by its private
codec or by the shared one under `"opentracing_root"`, equals a key of the
Stackdriver backend, self or parent. -/
theorem backend_keys_disjoint (P Q : Option (List Seg)) :
    OpenTracer.getCtxKey P ≠ getCtxKey "stackdriver_root" Q ∧
    OpenTracer.getCtxKey P ≠ getParentCtxKey "stackdriver_root" Q ∧
    OpenTracer.getParentCtxKey P ≠ getCtxKey "stackdriver_root" Q ∧
    OpenTracer.getParentCtxKey P ≠ getParentCtxKey "stackdriver_root" Q ∧
    getCtxKey "opentracing_root" P ≠ getCtxKey "stackdriver_root" Q ∧
    getCtxKey "opentracing_root" P ≠ getParentCtxKey "stackdriver_root" Q ∧
    getParentCtxKey "opentracing_root" P ≠ getCtxKey "stackdriver_root" Q ∧
    getParentCtxKey "opentracing_root" P ≠ getParentCtxKey "stackdriver_root" Q := by
  obtain ⟨s, hs⟩ := getParentCtxKey_data "opentracing_root" P
  obtain ⟨t, ht⟩ := getParentCtxKey_data "stackdriver_root" Q
  have hs0 := getCtxKey_data "opentracing_root" P
  have ht0 := getCtxKey_data "stackdriver_root" Q
  rw [openTracer_getCtxKey_eq, openTracer_getParentCtxKey_eq]
  exact ⟨opentracing_ne_stackdriver _ _ _ _ hs0 ht0, opentracing_ne_stackdriver _ _ _ _ hs0 ht,
    opentracing_ne_stackdriver _ _ _ _ hs ht0, opentracing_ne_stackdriver _ _ _ _ hs ht,
    opentracing_ne_stackdriver _ _ _ _ hs0 ht0, opentracing_ne_stackdriver _ _ _ _ hs0 ht,
    opentracing_ne_stackdriver _ _ _ _ hs ht0, opentracing_ne_stackdriver _ _ _ _ hs ht⟩

/-! ## Decimal rendering -/

theorem digitChar_spec (m : Nat) (h : m < 10) :
    (Nat.digitChar m).isDigit = true ∧ (Nat.digitChar m).toNat - 48 = m := by
  interval_cases m <;> decide

theorem decVal_snoc (pre : List Char) (d : Char) :
    decVal (pre ++ [d]) = 10 * decVal pre + (d.toNat - 48) := by
  simp [decVal, List.foldl_append]

theorem toDigitsCore_spec (fuel : Nat) : ∀ (n : Nat) (acc : List Char), n < fuel →
    ∃ pre : List Char, Nat.toDigitsCore 10 fuel n acc = pre ++ acc ∧ pre ≠ [] ∧
      (∀ c ∈ pre, c.isDigit = true) ∧ decVal pre = n := by
  induction fuel with
  | zero => intro n acc h; omega
  | succ fuel ih =>
    intro n acc h
    have hd := digitChar_spec (n % 10) (Nat.mod_lt n (by decide))
    unfold Nat.toDigitsCore
    by_cases h0 : n / 10 = 0
    · refine ⟨[Nat.digitChar (n % 10)], by simp [h0], by simp, ?_, ?_⟩
      · intro c hc
        rw [List.mem_singleton] at hc
        rw [hc]; exact hd.1
      · have : decVal [Nat.digitChar (n % 10)] = (Nat.digitChar (n % 10)).toNat - 48 := by
          simp [decVal]
        rw [this, hd.2]
        omega
    · have hlt : n / 10 < fuel := by omega
      obtain ⟨pre, hpre, _, hdig, hval⟩ := ih (n / 10) (Nat.digitChar (n % 10) :: acc) hlt
      refine ⟨pre ++ [Nat.digitChar (n % 10)], ?_, by simp, ?_, ?_⟩
      · simp only [h0, if_false, hpre]
        simp
      · intro c hc
        rw [List.mem_append, List.mem_singleton] at hc
        rcases hc with hc | hc
        · exact hdig c hc
        · rw [hc]; exact hd.1
      · rw [decVal_snoc, hval, hd.2]
        omega

theorem repr_spec (n : Nat) :
    (Nat.repr n).data ≠ [] ∧ (∀ c ∈ (Nat.repr n).data, c.isDigit = true) ∧
      decVal (Nat.repr n).data = n := by
  obtain ⟨pre, hpre, hne, hdig, hval⟩ := toDigitsCore_spec (n + 1) n [] (Nat.lt_succ_self n)
  have : (Nat.repr n).data = pre := by
    simp [Nat.repr, Nat.toDigits, List.asString, hpre]
  rw [this]
  exact ⟨hne, hdig, hval⟩

theorem repr_injective (n m : Nat) (h : Nat.repr n = Nat.repr m) : n = m := by
  have hn := (repr_spec n).2.2
  rw [h, (repr_spec m).2.2] at hn
  exact hn.symm

theorem fmtInt_negSucc_data (n : Nat) :
    (fmtInt (Int.negSucc n)).data = '-' :: (Nat.repr (n + 1)).data := by
  simp [fmtInt, String.data_append]

theorem fmtInt_chars (i : Int) (c : Char) (hc : c ∈ (fmtInt i).data) :
    c.isDigit = true ∨ c = '-' := by
  cases i with
  | ofNat n => exact Or.inl ((repr_spec n).2.1 c hc)
  | negSucc n =>
    rw [fmtInt_negSucc_data, List.mem_cons] at hc
    rcases hc with hc | hc
    · exact Or.inr hc
    · exact Or.inl ((repr_spec (n + 1)).2.1 c hc)

theorem fmtInt_injective (i j : Int) (h : fmtInt i = fmtInt j) : i = j := by
  have hd := congrArg String.data h
  cases i with
  | ofNat n =>
    cases j with
    | ofNat m => rw [repr_injective n m h]
    | negSucc m =>
      exfalso
      rw [fmtInt_negSucc_data] at hd
      have hmem : '-' ∈ (fmtInt (Int.ofNat n)).data := by rw [hd]; exact List.mem_cons_self _ _
      have := (repr_spec n).2.1 '-' hmem
      revert this; decide
  | negSucc n =>
    cases j with
    | ofNat m =>
      exfalso
      rw [fmtInt_negSucc_data] at hd
      have hmem : '-' ∈ (fmtInt (Int.ofNat m)).data := by rw [← hd]; exact List.mem_cons_self _ _
      have := (repr_spec m).2.1 '-' hmem
      revert this; decide
    | negSucc m =>
      rw [fmtInt_negSucc_data, fmtInt_negSucc_data, List.cons.injEq] at hd
      have := repr_injective (n + 1) (m + 1) (String.ext hd.2)
      have hnm : n = m := by omega
      rw [hnm]

/-! ## Splitting a key at its separators -/

theorem tailChars_head (xs : List Seg) :
    tailChars xs = [] ∨ ∃ t, tailChars xs = '_' :: t := by
  cases xs with
  | nil => exact Or.inl rfl
  | cons a rest => exact Or.inr ⟨_, rfl⟩

theorem split_unique (s1 : List Char) : ∀ (s2 r1 r2 : List Char),
    '_' ∉ s1 → '_' ∉ s2 → (r1 = [] ∨ ∃ t, r1 = '_' :: t) → (r2 = [] ∨ ∃ t, r2 = '_' :: t) →
    s1 ++ r1 = s2 ++ r2 → s1 = s2 ∧ r1 = r2 := by
  induction s1 with
  | nil =>
    intro s2 r1 r2 _ h2 hr1 _ h
    cases s2 with
    | nil => exact ⟨rfl, by simpa using h⟩
    | cons c s2 =>
      exfalso
      simp only [List.nil_append, List.cons_append] at h
      rcases hr1 with hr1 | ⟨t, hr1⟩
      · rw [hr1] at h; exact List.noConfusion h
      · rw [hr1, List.cons.injEq] at h
        exact h2 (by rw [h.1]; exact List.mem_cons_self _ _)
  | cons c s1 ih =>
    intro s2 r1 r2 h1 h2 hr1 hr2 h
    cases s2 with
    | nil =>
      exfalso
      simp only [List.nil_append, List.cons_append] at h
      rcases hr2 with hr2 | ⟨t, hr2⟩
      · rw [hr2] at h; exact List.noConfusion h
      · rw [hr2, List.cons.injEq] at h
        exact h1 (by rw [← h.1]; exact List.mem_cons_self _ _)
    | cons d s2 =>
      simp only [List.cons_append, List.cons.injEq] at h
      have h1t : '_' ∉ s1 := fun hm => h1 (List.mem_cons_of_mem _ hm)
      have h2t : '_' ∉ s2 := fun hm => h2 (List.mem_cons_of_mem _ hm)
      obtain ⟨e1, e2⟩ := ih s2 r1 r2 h1t h2t hr1 hr2 h.2
      exact ⟨by rw [h.1, e1], e2⟩

theorem tailChars_inj (xs : List Seg) : ∀ ys : List Seg,
    (∀ a ∈ xs, '_' ∉ (fmtV a).data) → (∀ a ∈ ys, '_' ∉ (fmtV a).data) →
    tailChars xs = tailChars ys → xs.map fmtV = ys.map fmtV := by
  induction xs with
  | nil =>
    intro ys _ _ h
    cases ys with
    | nil => rfl
    | cons b ys => exact List.noConfusion h
  | cons a xs ih =>
    intro ys hx hy h
    cases ys with
    | nil => exact List.noConfusion h
    | cons b ys =>
      simp only [tailChars, List.cons.injEq, true_and] at h
      obtain ⟨e1, e2⟩ := split_unique _ _ _ _ (hx a (List.mem_cons_self _ _))
        (hy b (List.mem_cons_self _ _)) (tailChars_head xs) (tailChars_head ys) h
      have := ih ys (fun c hc => hx c (List.mem_cons_of_mem _ hc))
        (fun c hc => hy c (List.mem_cons_of_mem _ hc)) e2
      simp only [List.map_cons, this, String.ext e1]

theorem tailChars_of_map_eq (xs : List Seg) : ∀ ys : List Seg,
    xs.map fmtV = ys.map fmtV → tailChars xs = tailChars ys := by
  induction xs with
  | nil =>
    intro ys h
    cases ys with
    | nil => rfl
    | cons b ys => exact List.noConfusion h
  | cons a xs ih =>
    intro ys h
    cases ys with
    | nil => exact List.noConfusion h
    | cons b ys =>
      simp only [List.map_cons, List.cons.injEq] at h
      simp only [tailChars, h.1, ih ys h.2]

theorem underscoreFree_fmtV (a : Seg) (h : a.underscoreFree = true) : '_' ∉ (fmtV a).data := by
  intro hm
  cases a with
  | str s =>
    simp only [Seg.underscoreFree, List.all_eq_true] at h
    have := h '_' hm
    simp at this
  | int i =>
    rcases fmtInt_chars i '_' hm with hd | hd
    · revert hd; decide
    · revert hd; decide

theorem alphanumeric_underscoreFree (a : Seg) (h : a.alphanumeric = true) :
    a.underscoreFree = true := by
  cases a with
  | int i => rfl
  | str s =>
    simp only [Seg.alphanumeric, List.all_eq_true] at h
    simp only [Seg.underscoreFree, List.all_eq_true]
    intro c hc
    have hal := h c hc
    simp only [decide_eq_true_eq]
    intro e
    rw [e] at hal
    revert hal; decide

theorem getCtxKey_eq_iff_tail (ns : String) (P Q : Option (List Seg)) :
    getCtxKey ns P = getCtxKey ns Q ↔ tailChars (elems P) = tailChars (elems Q) := by
  constructor
  · intro h
    have hd := congrArg String.data h
    rw [getCtxKey_data, getCtxKey_data] at hd
    exact List.append_cancel_left hd
  · intro h
    apply String.ext
    rw [getCtxKey_data, getCtxKey_data, h]

/-! ## Injectivity of the self key -/

theorem fmtV_str_ne_int (s : String) (i : Int) (hal : (Seg.str s).alphanumeric = true)
    (hni : (Seg.str s).notIndexText = true) : fmtV (Seg.str s) ≠ fmtV (Seg.int i) := by
  intro h
  simp only [fmtV] at h
  cases i with
  | ofNat n =>
    have hv : decVal s.data = n := by rw [h]; exact (repr_spec n).2.2
    have : isIndexText s = true := by
      simp only [isIndexText, decide_eq_true_eq, hv]
      exact h.symm
    simp [Seg.notIndexText, this] at hni
  | negSucc n =>
    have hd : s.data = '-' :: (Nat.repr (n + 1)).data := by
      rw [h]; exact fmtInt_negSucc_data n
    simp only [Seg.alphanumeric, List.all_eq_true] at hal
    have := hal '-' (by rw [hd]; exact List.mem_cons_self _ _)
    revert this; decide

theorem fmtV_inj_on (a b : Seg)
    (ha : a.alphanumeric = true ∧ a.notIndexText = true)
    (hb : b.alphanumeric = true ∧ b.notIndexText = true)
    (h : fmtV a = fmtV b) : a = b := by
  cases a with
  | str s =>
    cases b with
    | str t => simp only [fmtV] at h; rw [h]
    | int j => exact absurd h (fmtV_str_ne_int s j ha.1 ha.2)
  | int i =>
    cases b with
    | str t => exact absurd h.symm (fmtV_str_ne_int t i hb.1 hb.2)
    | int j => simp only [fmtV] at h; rw [fmtInt_injective i j h]

theorem map_fmtV_inj_on (xs : List Seg) : ∀ ys : List Seg,
    (∀ a ∈ xs, a.alphanumeric = true ∧ a.notIndexText = true) →
    (∀ a ∈ ys, a.alphanumeric = true ∧ a.notIndexText = true) →
    xs.map fmtV = ys.map fmtV → xs = ys := by
  induction xs with
  | nil =>
    intro ys _ _ h
    cases ys with
    | nil => rfl
    | cons b ys => exact List.noConfusion h
  | cons a xs ih =>
    intro ys hx hy h
    cases ys with
    | nil => exact List.noConfusion h
    | cons b ys =>
      simp only [List.map_cons, List.cons.injEq] at h
      have e1 := fmtV_inj_on a b (hx a (List.mem_cons_self _ _)) (hy b (List.mem_cons_self _ _)) h.1
      have e2 := ih ys (fun c hc => hx c (List.mem_cons_of_mem _ hc))
        (fun c hc => hy c (List.mem_cons_of_mem _ hc)) h.2
      rw [e1, e2]

/-- C3, as stated, fails: the one-segment path `["a_b"]` and the two-segment
path `["a","b"]` differ and have the same key. -/
theorem getCtxKey_underscore_collision :
    ¬ (getCtxKey "stackdriver_root" (some [Seg.str "a_b"])
          = getCtxKey "stackdriver_root" (some [Seg.str "a", Seg.str "b"]) ↔
        [Seg.str "a_b"] = [Seg.str "a", Seg.str "b"]) := by
  decide

/-- C3, amended: paths that are equal as segment sequences have equal keys,
and for paths in which no string segment contains an underscore the keys are
equal exactly when the two sequences of rendered segments are equal. -/
theorem getCtxKey_eq_iff_rendering (ns : String) (P Q : Option (List Seg)) :
    (elems P = elems Q → getCtxKey ns P = getCtxKey ns Q) ∧
    ((∀ a ∈ elems P, a.underscoreFree = true) → (∀ a ∈ elems Q, a.underscoreFree = true) →
      (getCtxKey ns P = getCtxKey ns Q ↔ (elems P).map fmtV = (elems Q).map fmtV)) := by
  refine ⟨?_, ?_⟩
  · intro h
    rw [getCtxKey_eq_iff_tail, h]
  · intro hP hQ
    rw [getCtxKey_eq_iff_tail]
    exact ⟨tailChars_inj _ _ (fun a ha => underscoreFree_fmtV a (hP a ha))
      (fun a ha => underscoreFree_fmtV a (hQ a ha)), tailChars_of_map_eq _ _⟩

/-- C3, amended, at the nil and the empty path, and at `["user",2]` and
`["user","2"]`, which render alike and so share a key. -/
theorem getCtxKey_eq_iff_rendering_witness :
    (elems none = elems (some []) ∧
      getCtxKey "stackdriver_root" none = getCtxKey "stackdriver_root" (some [])) ∧
    ((∀ a ∈ elems (some [Seg.str "user", Seg.int 2]), a.underscoreFree = true) ∧
      (∀ a ∈ elems (some [Seg.str "user", Seg.str "2"]), a.underscoreFree = true) ∧
      (getCtxKey "stackdriver_root" (some [Seg.str "user", Seg.int 2])
          = getCtxKey "stackdriver_root" (some [Seg.str "user", Seg.str "2"]) ↔
        (elems (some [Seg.str "user", Seg.int 2])).map fmtV
          = (elems (some [Seg.str "user", Seg.str "2"])).map fmtV)) :=
  ⟨⟨rfl, (getCtxKey_eq_iff_rendering "stackdriver_root" none (some [])).1 rfl⟩,
    by decide, by decide,
    (getCtxKey_eq_iff_rendering "stackdriver_root" (some [Seg.str "user", Seg.int 2])
      (some [Seg.str "user", Seg.str "2"])).2 (by decide) (by decide)⟩

/-- C4, as stated, fails: the paths `["1"]` (a string) and `[1]` (a list
index) are alphanumeric, differ, and have the same key. -/
theorem getCtxKey_index_text_collision :
    (∀ a ∈ [Seg.str "1"], a.alphanumeric = true) ∧
    (∀ a ∈ [Seg.int 1], a.alphanumeric = true) ∧
    [Seg.str "1"] ≠ [Seg.int 1] ∧
    getCtxKey "stackdriver_root" (some [Seg.str "1"])
      = getCtxKey "stackdriver_root" (some [Seg.int 1]) := by
  decide

/-- C4, amended: within one namespace the self key is injective on paths
whose segments are integers or strings of letters and digits that do not
spell a list index: two such paths with different segment sequences have
different keys. -/
theorem getCtxKey_injective_on_names (ns : String) (P Q : Option (List Seg))
    (hP : ∀ a ∈ elems P, a.alphanumeric = true ∧ a.notIndexText = true)
    (hQ : ∀ a ∈ elems Q, a.alphanumeric = true ∧ a.notIndexText = true)
    (hne : elems P ≠ elems Q) : getCtxKey ns P ≠ getCtxKey ns Q := by
  intro h
  rw [getCtxKey_eq_iff_tail] at h
  have hm := tailChars_inj _ _
    (fun a ha => underscoreFree_fmtV a (alphanumeric_underscoreFree a (hP a ha).1))
    (fun a ha => underscoreFree_fmtV a (alphanumeric_underscoreFree a (hQ a ha).1)) h
  exact hne (map_fmtV_inj_on _ _ hP hQ hm)

/-- C4, amended, at the paths `["user","friends",2,"name"]` and
`["user","friends2","name"]`. -/
theorem getCtxKey_injective_on_names_witness :
    (∀ a ∈ elems (some [Seg.str "user", Seg.str "friends", Seg.int 2, Seg.str "name"]),
      a.alphanumeric = true ∧ a.notIndexText = true) ∧
    (∀ a ∈ elems (some [Seg.str "user", Seg.str "friends2", Seg.str "name"]),
      a.alphanumeric = true ∧ a.notIndexText = true) ∧
    elems (some [Seg.str "user", Seg.str "friends", Seg.int 2, Seg.str "name"])
      ≠ elems (some [Seg.str "user", Seg.str "friends2", Seg.str "name"]) ∧
    getCtxKey "stackdriver_root"
        (some [Seg.str "user", Seg.str "friends", Seg.int 2, Seg.str "name"])
      ≠ getCtxKey "stackdriver_root" (some [Seg.str "user", Seg.str "friends2", Seg.str "name"]) :=
  ⟨by decide, by decide, by decide,
    getCtxKey_injective_on_names "stackdriver_root"
      (some [Seg.str "user", Seg.str "friends", Seg.int 2, Seg.str "name"])
      (some [Seg.str "user", Seg.str "friends2", Seg.str "name"])
      (by decide) (by decide) (by decide)⟩

/-! ## The span registry -/

/-- C9: the context returned by `ResolveFieldDidStart`, of the Stackdriver and
of the OpenTracing backend, is the given context wrapped once; it maps the
self key of the path to the handle of the new span, and every other key to
what the given context maps it to, not-found included. -/
theorem resolveFieldDidStart_frame
    (startSD : Context → String → SpanContext → SpanContext)
    (startOT : String → Option SpanContext → SpanContext)
    (c : Context) (i : ResolveInfo) (k : Key) :
    ((SDTracer.ResolveFieldDidStart startSD c i).1
        = Context.withValue c (Key.ctxKey (getCtxKey "stackdriver_root" i.Path))
            (Val.spanContext (SDTracer.ResolveFieldDidStart startSD c i).2) ∧
      (SDTracer.ResolveFieldDidStart startSD c i).1.Value k
        = if k = Key.ctxKey (getCtxKey "stackdriver_root" i.Path)
          then some (Val.spanContext (SDTracer.ResolveFieldDidStart startSD c i).2)
          else c.Value k) ∧
    ((OpenTracer.ResolveFieldDidStart startOT c i).1
        = Context.withValue c (Key.ctxKey (OpenTracer.getCtxKey i.Path))
            (Val.spanContext (OpenTracer.ResolveFieldDidStart startOT c i).2) ∧
      (OpenTracer.ResolveFieldDidStart startOT c i).1.Value k
        = if k = Key.ctxKey (OpenTracer.getCtxKey i.Path)
          then some (Val.spanContext (OpenTracer.ResolveFieldDidStart startOT c i).2)
          else c.Value k) :=
  ⟨⟨rfl, rfl⟩, ⟨rfl, rfl⟩⟩

/-! ## The trace aggregator -/

/-- C5: on the aggregator that `NewGQLTracer` creates, `AddResolverResult`
does not return normally: the mutex pointer is nil, so the call ends in a nil
pointer dereference, for every record; and so does the finish callback of a
field resolution started after `Init`. -/
theorem addResolverResult_new_tracer_faults (r : ResolverResult) (now0 now1 now2 : Int)
    (ctx : Context) (i : ResolveInfo) :
    ExecutionResult.AddResolverResult (NewGQLTracer.result.bind TracingResult.Execution) r
      = Except.error Fault.nilPointerDereference ∧
    ∃ t r0, NewGQLTracer.Init now0 = Except.ok t ∧
      t.ResolveFieldDidStart ctx now1 i = Except.ok (ctx, r0) ∧
      t.resolveFieldFinish r0 now2 = Except.error Fault.nilPointerDereference :=
  ⟨rfl, _, _, rfl, rfl, rfl⟩

/-- C8: for the field `name` of type `String` on `User`, at the path
`["user","name"]`, the record that the finish callback passes to the
aggregator has the path, the parent type and the return type of the resolve
info, and the empty string as its field name. -/
theorem resolverResult_fieldName_not_set :
    ∃ t r r1, NewGQLTracer.Init 100 = Except.ok t ∧
      t.ResolveFieldDidStart Context.background 130
          { FieldName := "name", Path := some [Seg.str "user", Seg.str "name"],
            ParentType := "User", ReturnType := "String" }
        = Except.ok (Context.background, r) ∧
      t.finishedRecord r 175 = Except.ok r1 ∧
      r1.Path = some [Seg.str "user", Seg.str "name"] ∧
      r1.ParentType = "User" ∧
      r1.ReturnType = "String" ∧
      r1.FieldName = "" ∧
      r1.FieldName ≠ "name" :=
  ⟨_, _, _, rfl, rfl, rfl, rfl, rfl, rfl, rfl, by decide⟩

/-- With a free mutex in place the append goes through: the record is added
at the end, nothing else changes, and the mutex is free again. -/
theorem addResolverResult_with_mutex (rs : List ResolverResult) (r : ResolverResult) :
    ExecutionResult.AddResolverResult (some { Resolvers := rs, mu := some { locked := false } }) r
      = Except.ok { Resolvers := rs ++ [r], mu := some { locked := false } } :=
  rfl

end Extensions
